import Mathlib

/-!
Shallow embedding of the temper-go feature-flag filter core
(`filter.go`, current revision): the FNV-1a hash, the cuckoo-style
membership filter, the rollout evaluator, and the binary decoder
`from`, together with theorems checking the natural-language
specification against this embedding.

Bytes are modelled as `Nat` (values `< 256` in the source's byte
slices); 64-bit unsigned arithmetic is modelled on `Nat` with explicit
reduction modulo `2 ^ 64` exactly where Go's `uint64` wraps.
-/

namespace Temper

/-- `2 ^ 64`, the modulus of Go's `uint64` arithmetic. -/
def U64 : Nat := 2 ^ 64

/-- FNV-1a 64-bit offset basis (`fnv.New64a()` initial state). -/
def fnvOffset : Nat := 14695981039346656037

/-- FNV-1a 64-bit prime. -/
def fnvPrime : Nat := 1099511628211

/-- One FNV-1a round: `h = (h XOR b) * prime` in `uint64` arithmetic. -/
def fnvStep (h b : Nat) : Nat := ((h ^^^ b) * fnvPrime) % U64

/-- `hash` computes the 64-bit FNV-1a hash of the given data
(`hash/fnv`'s `New64a` / `Write` / `Sum64`). -/
def hash (data : List Nat) : Nat := data.foldl fnvStep fnvOffset

/-- One smearing step of `nextPowerOf2`: `n |= n >> k` on `uint64`. -/
def smearStep (k n : Nat) : Nat := n ||| (n >>> k)

/-- The six smearing steps of `nextPowerOf2` (`n |= n>>1; ...; n |= n>>32`). -/
def smear (n : Nat) : Nat :=
  smearStep 32 (smearStep 16 (smearStep 8 (smearStep 4 (smearStep 2 (smearStep 1 n)))))

/-- `nextPowerOf2` returns the next power of two, as the source computes
it on `uint64`: decrement (wrapping), smear the bits downward, increment
(wrapping). -/
def nextPowerOf2 (n : Nat) : Nat :=
  (smear ((n % U64 + (U64 - 1)) % U64) + 1) % U64

/-- `maxFingerprint` is the maximum size of a fingerprint (`(1 << 16) - 1`). -/
def maxFingerprint : Nat := (1 <<< 16) - 1

/-- `bucketSize` is the number of entries in each bucket. -/
def bucketSize : Nat := 4

/-- `bytesPerBucket` is the number of bytes in a single bucket
(`bucketSize * 16 / 8`). -/
def bytesPerBucket : Nat := bucketSize * 16 / 8

/-- A bucket contains fingerprints (`type bucket [bucketSize]uint16`). -/
structure bucket where
  entries : List Nat
deriving DecidableEq, Repr

/-- `contains` returns true if the fingerprint is in the bucket
(linear scan of the entries). -/
def bucket.contains (b : bucket) (fingerprint : Nat) : Bool :=
  b.entries.any fun entry => entry == fingerprint

/-- The `filter` struct. `buckets` is `none` for Go's nil slice; the
`rollouts` map is an association list read through `mapGet` (first
match wins, so building by prepending models map overwrite). -/
structure filter where
  cap : Nat
  count : Nat
  buckets : Option (List bucket)
  bucketIndexMask : Nat
  rollouts : List (Nat × Nat)
deriving DecidableEq, Repr

/-- Reading a Go map with a default of zero: `f.rollouts[high]`
yields the stored value, or `0` when the key is absent (also on a nil
map). -/
def mapGet (m : List (Nat × Nat)) (k : Nat) : Nat :=
  match m.find? (fun p => p.1 == k) with
  | some p => p.2
  | none => 0

/-- The zero value `filter{}`: nil buckets, nil rollout map. -/
def zeroValueFilter : filter :=
  { cap := 0, count := 0, buckets := none, bucketIndexMask := 0, rollouts := [] }

/-- The JSON response struct: `Filter` and `Rollout` byte slices, each
possibly nil (`none`). -/
structure filterResponse where
  Filter : Option (List Nat)
  Rollout : Option (List Nat)
deriving DecidableEq, Repr

/-- `binary.Read(r, binary.LittleEndian, &uint16)`: two consecutive
bytes, least significant first. -/
def readU16 (data : List Nat) (i : Nat) : Nat :=
  data.getD i 0 ||| (data.getD (i + 1) 0 <<< 8)

/-- `binary.Read(r, binary.LittleEndian, &uint64)`: eight consecutive
bytes, least significant first. -/
def readU64 (data : List Nat) (i : Nat) : Nat :=
  data.getD i 0 ||| (data.getD (i + 1) 0 <<< 8) ||| (data.getD (i + 2) 0 <<< 16) |||
    (data.getD (i + 3) 0 <<< 24) ||| (data.getD (i + 4) 0 <<< 32) |||
    (data.getD (i + 5) 0 <<< 40) ||| (data.getD (i + 6) 0 <<< 48) |||
    (data.getD (i + 7) 0 <<< 56)

/-- The bucket-filling loop of `from`: bucket `i` holds the four
little-endian `uint16` values at byte offsets `8*i .. 8*i+7`. (The
`binary.Read` calls cannot fail because `size * 8 ≤ len(data)`.) -/
def bucketsOf (data : List Nat) (size : Nat) : List bucket :=
  (List.range size).map fun i =>
    ⟨[readU16 data (8 * i), readU16 data (8 * i + 2),
      readU16 data (8 * i + 4), readU16 data (8 * i + 6)]⟩

/-- The running `count` of nonzero fingerprints accumulated while
filling the buckets. -/
def countNonzero (bs : List bucket) : Nat :=
  (bs.map fun b => (b.entries.filter fun e => e != 0).length).sum

/-- The rollout-entry loop of `from`: `r.Len()/8` little-endian
`uint64` entries (trailing bytes beyond the last full 8-byte chunk are
never read). -/
def entriesOf (r : List Nat) : List Nat :=
  (List.range (r.length / 8)).map fun i => readU64 r (8 * i)

/-- The rollout-map construction of `from`: each entry `e` is split
into `high = (e >> 8) << 8` and `low = uint8(e & 0xff)`, and
`rollouts[high] = low`.  Prepending models map overwrite because
`mapGet` takes the first match. -/
def rolloutsOf (r : List Nat) : List (Nat × Nat) :=
  (entriesOf r).foldl (fun m e => ((e >>> 8) <<< 8, e &&& 255) :: m) []

/-- The rollout half of `from`: a nil `Rollout` leaves the map nil
(reads on a nil map and on an empty map agree, so both are `[]`). -/
def rolloutsFromResponse : Option (List Nat) → List (Nat × Nat)
  | none => []
  | some r => rolloutsOf r

/-- The decode errors `from` can return. -/
inductive DecodeError where
  | malformedLength
  | tooSmall
  | notPowerOfTwo
deriving DecidableEq, Repr

/-- `from` initializes a filter from an encoded byte slice.  Faithful
to the source: the filter half runs only if `fr.Filter != nil`, with
the modulo-4 length check, the `size < 1` check, and the
`nextPowerOf2(uint64(size)) != uint(size)` check in that order; the
rollout half runs only if `fr.Rollout != nil` and cannot fail. -/
def from_ (fr : filterResponse) : Except DecodeError filter :=
  match fr.Filter with
  | none =>
      Except.ok { cap := 0, count := 0, buckets := none, bucketIndexMask := 0,
                  rollouts := rolloutsFromResponse fr.Rollout }
  | some fb =>
      if fb.length % bucketSize ≠ 0 then
        Except.error DecodeError.malformedLength
      else
        let size := fb.length / bytesPerBucket
        if size < 1 then
          Except.error DecodeError.tooSmall
        else if nextPowerOf2 size ≠ size % U64 then
          Except.error DecodeError.notPowerOfTwo
        else
          let buckets := bucketsOf fb size
          Except.ok { cap := size, count := countNonzero buckets,
                      buckets := some buckets,
                      bucketIndexMask := buckets.length - 1,
                      rollouts := rolloutsFromResponse fr.Rollout }

/-- `fingerprintAndIndex` returns the fingerprint of the given data and
the primary index.  The `uint16` conversion is the final `% 2 ^ 16`;
`uint(hash)` is the identity because the hash is already below `2^64`. -/
def filter.fingerprintAndIndex (f : filter) (data : List Nat) : Nat × Nat :=
  let h := hash data
  let shifted := h >>> (64 - 16)
  let fingerprint := (shifted % (maxFingerprint - 1) + 1) % 2 ^ 16
  let index := h &&& f.bucketIndexMask
  (fingerprint, index)

/-- `binary.LittleEndian.PutUint16`: the fingerprint as two bytes,
least significant first. -/
def le16Bytes (fingerprint : Nat) : List Nat :=
  [fingerprint % 256, (fingerprint >>> 8) % 256]

/-- `altIndex` returns the secondary index to store or retrieve a value
in the filter: XOR the index with the hash of the fingerprint's 2-byte
little-endian encoding, masked. -/
def filter.altIndex (f : filter) (fingerprint index : Nat) : Nat :=
  (index ^^^ hash (le16Bytes fingerprint)) &&& f.bucketIndexMask

/-- The feature-key trimming step of `lookupRollout`: everything after
the first `:` (byte 58) is cut off, but only when the delimiter sits at
a position greater than zero (`bytes.Index` returns `-1` when absent). -/
def featureKey (data : List Nat) : List Nat :=
  match data.findIdx? (fun b => b == 58) with
  | some i => if 0 < i then data.take i else data
  | none => data

/-- `lookupRollout` looks up the rollout entry in the filter's rollout
table: hash the full key, hash the feature segment, read the
percentage at the feature hash with its low 8 bits cleared, return
true on a 100% rollout, and otherwise compare `uint8(hfull % 100)`
against the percentage. -/
def filter.lookupRollout (f : filter) (data : List Nat) : Bool :=
  let hfull := hash data
  let hfeat := hash (featureKey data)
  let high := (hfeat >>> 8) <<< 8
  let rollout := mapGet f.rollouts high
  if rollout == 100 then true
  else decide (hfull % 100 % 256 ≤ rollout)

/-- `lookupFilter` checks if the data is in the filter: nil buckets
answer false; otherwise probe the primary bucket, then the alternate
bucket. (For decoded filters the indices are always in range, so the
`getD` default bucket is never consulted.) -/
def filter.lookupFilter (f : filter) (data : List Nat) : Bool :=
  match f.buckets with
  | none => false
  | some bs =>
      let fi := f.fingerprintAndIndex data
      if (bs.getD fi.2 ⟨[]⟩).contains fi.1 then true
      else (bs.getD (f.altIndex fi.1 fi.2) ⟨[]⟩).contains fi.1

/-- `lookup` returns true if data is in the filter or is enabled by the
rollout data. -/
def filter.lookup (f : filter) (data : List Nat) : Bool :=
  if f.lookupRollout data then true
  else f.lookupFilter data

/-- Spec-side restatement of the rollout evaluator, written from the
words of the specification (§4.3): extract the feature key (prefix
before the first `:` when its position is greater than 0, else the
whole key); look up the percentage by the feature hash with low 8 bits
cleared, defaulting to 0; return true when the percentage is 100, and
otherwise exactly when `hash(key) mod 100 ≤ percentage`. -/
def enabledByRolloutSpec (rollouts : List (Nat × Nat)) (key : List Nat) : Bool :=
  let featKey :=
    match key.findIdx? (fun b => b == 58) with
    | some i => if 0 < i then key.take i else key
    | none => key
  let percentage := mapGet rollouts ((hash featKey >>> 8) <<< 8)
  if percentage == 100 then true
  else decide (hash key % 100 ≤ percentage)

end Temper

namespace Temper

/-! ## General helper lemmas -/

/-- The mod-100 bucket value is below 100, so the `uint8` conversion in
`lookupRollout` is the identity. -/
theorem mod100_mod256 (h : Nat) : h % 100 % 256 = h % 100 :=
  Nat.mod_eq_of_lt (lt_trans (Nat.mod_lt _ (by norm_num)) (by norm_num))

/-- `getD` with default `0` commutes with `take` below the cut. -/
theorem getD_take (l : List Nat) (n i : Nat) (h : i < n) :
    (l.take n).getD i 0 = l.getD i 0 := by
  simp [List.getD_eq_getElem?_getD, List.getElem?_take, h]

/-- `readU64` only reads the eight bytes starting at `i`, so it is
unchanged by truncation beyond them. -/
theorem readU64_take (r : List Nat) (n i : Nat) (h : i + 8 ≤ n) :
    readU64 (r.take n) i = readU64 r i := by
  unfold readU64
  rw [getD_take _ _ _ (by omega), getD_take _ _ _ (by omega),
    getD_take _ _ _ (by omega), getD_take _ _ _ (by omega),
    getD_take _ _ _ (by omega), getD_take _ _ _ (by omega),
    getD_take _ _ _ (by omega), getD_take _ _ _ (by omega)]

/-- `readU16` only reads the two bytes starting at `i`. -/
theorem readU16_take (l : List Nat) (n i : Nat) (h : i + 2 ≤ n) :
    readU16 (l.take n) i = readU16 l i := by
  unfold readU16
  rw [getD_take _ _ _ (by omega), getD_take _ _ _ (by omega)]

/-- The bucket table built from `size` buckets only depends on the
first `8 * size` bytes. -/
theorem bucketsOf_take (data : List Nat) (size n : Nat) (h : 8 * size ≤ n) :
    bucketsOf (data.take n) size = bucketsOf data size := by
  unfold bucketsOf
  apply List.map_congr_left
  intro i hi
  rw [List.mem_range] at hi
  rw [readU16_take _ _ _ (by omega), readU16_take _ _ _ (by omega),
    readU16_take _ _ _ (by omega), readU16_take _ _ _ (by omega)]

/-- The rollout entries only depend on the first `8 * (len / 8)` bytes:
truncating the input there changes nothing. -/
theorem entriesOf_take (r : List Nat) :
    entriesOf (r.take (8 * (r.length / 8))) = entriesOf r := by
  unfold entriesOf
  have hlen : (r.take (8 * (r.length / 8))).length = 8 * (r.length / 8) := by
    rw [List.length_take]
    exact Nat.min_eq_left (by omega)
  rw [hlen, Nat.mul_div_cancel_left _ (by norm_num)]
  apply List.map_congr_left
  intro i hi
  rw [List.mem_range] at hi
  exact readU64_take _ _ _ (by omega)

/-! ## C5, C6, C8, C9: query-side claims -/

/-- C5: for every key, the fingerprint computed by
`fingerprintAndIndex` equals `((hash key >> 48) mod 65534) + 1`, lies
in `[1, 65534]`, and is never `0`, the empty-slot sentinel.  (The
final `uint16` conversion in the source is the identity on this
range.) -/
theorem fingerprint_formula_and_range (f : filter) (data : List Nat) :
    (f.fingerprintAndIndex data).1 = (hash data >>> 48) % 65534 + 1 ∧
      1 ≤ (f.fingerprintAndIndex data).1 ∧
      (f.fingerprintAndIndex data).1 ≤ 65534 ∧
      (f.fingerprintAndIndex data).1 ≠ 0 := by
  unfold filter.fingerprintAndIndex
  have hmf : maxFingerprint - 1 = 65534 := by decide
  have hlt : hash data >>> (64 - 16) % 65534 < 65534 :=
    Nat.mod_lt _ (by norm_num)
  simp only [hmf]
  have hid : hash data >>> (64 - 16) % 65534 + 1 < 2 ^ 16 := by omega
  rw [Nat.mod_eq_of_lt hid]
  refine ⟨rfl, by omega, by omega, by omega⟩

/-- C6: alternate-index symmetry.  For any fingerprint and any index
already reduced by the filter's index mask, applying `altIndex` twice
returns the original index. -/
theorem altIndex_involutive (f : filter) (fp i : Nat)
    (h : i &&& f.bucketIndexMask = i) :
    f.altIndex fp (f.altIndex fp i) = i := by
  unfold filter.altIndex
  apply Nat.eq_of_testBit_eq
  intro j
  have hj := congrArg (fun n => n.testBit j) h
  simp only [Nat.testBit_and] at hj
  simp only [Nat.testBit_and, Nat.testBit_xor]
  cases hti : i.testBit j <;>
    cases hth : (hash (le16Bytes fp)).testBit j <;>
      cases htm : f.bucketIndexMask.testBit j <;> simp_all

/-- C6 witness: a concrete filter with index mask 7, fingerprint 3,
index 5. -/
theorem altIndex_involutive_witness :
    5 &&& ({ cap := 0, count := 0, buckets := none, bucketIndexMask := 7,
             rollouts := [] } : filter).bucketIndexMask = 5 ∧
      ({ cap := 0, count := 0, buckets := none, bucketIndexMask := 7,
         rollouts := [] } : filter).altIndex 3
        (({ cap := 0, count := 0, buckets := none, bucketIndexMask := 7,
            rollouts := [] } : filter).altIndex 3 5) = 5 :=
  ⟨by decide,
   altIndex_involutive
     { cap := 0, count := 0, buckets := none, bucketIndexMask := 7,
       rollouts := [] } 3 5 (by decide)⟩

/-- C8: `lookupRollout` behaves exactly as the specification describes
it: feature key is the part before the first `:` when that delimiter
sits at a position greater than 0 (else the whole key), the percentage
is read at the feature hash with low 8 bits cleared (default 0), a
percentage of 100 answers true, and otherwise the answer is
`hash(key) mod 100 ≤ percentage`. -/
theorem lookupRollout_eq_spec (f : filter) (key : List Nat) :
    f.lookupRollout key = enabledByRolloutSpec f.rollouts key := by
  simp only [filter.lookupRollout, enabledByRolloutSpec, featureKey, mod100_mod256]

/-- C9: on every filter, in particular every non-zero-value filter,
`lookup` answers true exactly when the rollout evaluator or the
membership filter answers true. -/
theorem lookup_eq_rollout_or_filter (f : filter) (data : List Nat)
    (_h : f.buckets ≠ none ∨ f.rollouts ≠ []) :
    f.lookup data = (f.lookupRollout data || f.lookupFilter data) := by
  unfold filter.lookup
  cases hr : f.lookupRollout data <;> simp [hr]

/-- C9 witness: a concrete one-bucket filter and the empty key. -/
theorem lookup_eq_rollout_or_filter_witness :
    (({ cap := 1, count := 0, buckets := some [⟨[0, 0, 0, 0]⟩],
        bucketIndexMask := 0, rollouts := [] } : filter).buckets ≠ none ∨
      ({ cap := 1, count := 0, buckets := some [⟨[0, 0, 0, 0]⟩],
         bucketIndexMask := 0, rollouts := [] } : filter).rollouts ≠ []) ∧
      ({ cap := 1, count := 0, buckets := some [⟨[0, 0, 0, 0]⟩],
         bucketIndexMask := 0, rollouts := [] } : filter).lookup [] =
        (({ cap := 1, count := 0, buckets := some [⟨[0, 0, 0, 0]⟩],
            bucketIndexMask := 0, rollouts := [] } : filter).lookupRollout [] ||
          ({ cap := 1, count := 0, buckets := some [⟨[0, 0, 0, 0]⟩],
             bucketIndexMask := 0, rollouts := [] } : filter).lookupFilter []) :=
  ⟨Or.inl (by decide),
   lookup_eq_rollout_or_filter
     { cap := 1, count := 0, buckets := some [⟨[0, 0, 0, 0]⟩],
       bucketIndexMask := 0, rollouts := [] } [] (Or.inl (by decide))⟩

end Temper

namespace Temper

/-! ## C1: the zero-value filter is not fail-closed -/

/-- C1: counter-evidence against the fail-safe claim.  On the
zero-value filter, the rollout table is empty, so `lookupRollout` reads
percentage `0` and then answers `hash(key) % 100 ≤ 0`.  The key
`test:user:109` (bytes below) has `hash % 100 = 0`, so `lookup`
answers `true` even though the specification (and the source's own
comments and log message) promise `false` for every key.  The empty
key, by contrast, hashes to bucket 37 and answers `false`. -/
theorem zeroValueFilter_lookup_true_on_colliding_key :
    zeroValueFilter.lookup
        [116, 101, 115, 116, 58, 117, 115, 101, 114, 58, 49, 48, 57] = true ∧
      hash [116, 101, 115, 116, 58, 117, 115, 101, 114, 58, 49, 48, 57] % 100 = 0 ∧
      zeroValueFilter.lookup [] = false := by
  refine ⟨by decide, by decide, by decide⟩

/-! ## C4: absent versus empty filter bytes -/

/-- C4 counterexample: decode of a present-but-empty `filterBytes`
does not succeed; it fails with the too-small error, contrary to the
claim that absent or empty filter bytes both decode successfully. -/
theorem from_some_empty_filter_errors :
    from_ { Filter := some [], Rollout := none } =
      Except.error DecodeError.tooSmall := rfl

/-- C4 amended: if `filterBytes` is absent (nil), decode succeeds, the
filter has no bucket table, and every membership query returns false;
but a present-and-empty `filterBytes` fails with the too-small
error. -/
theorem from_nil_filter_ok_and_empty_filter_errors
    (rb : Option (List Nat)) (data : List Nat) :
    ∃ f, from_ { Filter := none, Rollout := rb } = Except.ok f ∧
      f.buckets = none ∧ f.lookupFilter data = false ∧
      from_ { Filter := some [], Rollout := rb } =
        Except.error DecodeError.tooSmall :=
  ⟨_, rfl, rfl, rfl, rfl⟩

/-! ## C2: short rollout bytes are accepted, not rejected -/

/-- C2 counterexample: a 4-byte rollout input (length not a multiple
of 8) decodes successfully — to the zero-value filter, since no full
8-byte entry fits — instead of failing with a malformed-rollout-length
error.  No such error exists in the source. -/
theorem from_ok_on_short_rollout :
    ([0, 0, 0, 0] : List Nat).length % 8 ≠ 0 ∧
      from_ { Filter := none, Rollout := some [0, 0, 0, 0] } =
        Except.ok zeroValueFilter :=
  ⟨by decide, rfl⟩

/-- C2 amended: when `rolloutBytes` is present with a length that is
not a multiple of 8, decode still succeeds; it reads `len / 8` full
8-byte entries and silently ignores the trailing bytes, so the result
is the same as decoding the truncation to `8 * (len / 8)` bytes. -/
theorem from_rollout_never_errors_ignores_trailing (r : List Nat)
    (_h : r.length % 8 ≠ 0) :
    (from_ { Filter := none, Rollout := some r }).isOk = true ∧
      from_ { Filter := none, Rollout := some r } =
        from_ { Filter := none, Rollout := some (r.take (8 * (r.length / 8))) } := by
  refine ⟨rfl, ?_⟩
  simp only [from_, rolloutsFromResponse, rolloutsOf, entriesOf_take]

/-- C2 amended, witness at the 4-byte rollout input. -/
theorem from_rollout_never_errors_ignores_trailing_witness :
    ([0, 0, 0, 0] : List Nat).length % 8 ≠ 0 ∧
      ((from_ { Filter := none, Rollout := some [0, 0, 0, 0] }).isOk = true ∧
        from_ { Filter := none, Rollout := some [0, 0, 0, 0] } =
          from_ { Filter := none,
                  Rollout := some (([0, 0, 0, 0] : List Nat).take
                    (8 * (([0, 0, 0, 0] : List Nat).length / 8))) }) :=
  ⟨by decide, from_rollout_never_errors_ignores_trailing [0, 0, 0, 0] (by decide)⟩

end Temper

namespace Temper

/-! ## Bit-smearing correctness of `nextPowerOf2` (for C3 and C10) -/

theorem testBit_smearStep (k x j : Nat) :
    (smearStep k x).testBit j = (x.testBit j || x.testBit (j + k)) := by
  unfold smearStep
  rw [Nat.testBit_or, Nat.testBit_shiftRight, Nat.add_comm k j]

theorem smearStep_window (m x K : Nat)
    (hx : ∀ j, x.testBit j = true ↔ ∃ d, d < K ∧ m.testBit (j + d) = true) :
    ∀ j, (smearStep K x).testBit j = true ↔
      ∃ d, d < K + K ∧ m.testBit (j + d) = true := by
  intro j
  rw [testBit_smearStep, Bool.or_eq_true, hx j, hx (j + K)]
  constructor
  · rintro (⟨d, hd, hm⟩ | ⟨d, hd, hm⟩)
    · exact ⟨d, by omega, hm⟩
    · exact ⟨K + d, by omega, by rwa [← Nat.add_assoc]⟩
  · rintro ⟨d, hd, hm⟩
    by_cases hdK : d < K
    · exact Or.inl ⟨d, hdK, hm⟩
    · exact Or.inr ⟨d - K, by omega, by rw [Nat.add_assoc, Nat.add_sub_cancel' (by omega)]; exact hm⟩

theorem smear_window (m : Nat) :
    ∀ j, (smear m).testBit j = true ↔ ∃ d, d < 64 ∧ m.testBit (j + d) = true := by
  have h0 : ∀ j, m.testBit j = true ↔ ∃ d, d < 1 ∧ m.testBit (j + d) = true := by
    intro j
    constructor
    · intro h; exact ⟨0, by omega, by simpa using h⟩
    · rintro ⟨d, hd, hm⟩
      have : d = 0 := by omega
      subst this; simpa using hm
  have h1 := smearStep_window m m 1 h0
  have h2 := smearStep_window m _ 2 h1
  have h4 := smearStep_window m _ 4 h2
  have h8 := smearStep_window m _ 8 h4
  have h16 := smearStep_window m _ 16 h8
  have h32 := smearStep_window m _ 32 h16
  exact h32

/-- A nonzero number has its top bit set at position `size - 1`. -/
theorem testBit_size_pred (m : Nat) (hm : m ≠ 0) :
    m.testBit (m.size - 1) = true := by
  have hs : 0 < m.size := Nat.size_pos.mpr (Nat.pos_of_ne_zero hm)
  have hlow : 2 ^ (m.size - 1) ≤ m := Nat.lt_size.mp (by omega)
  have hhigh : m < 2 ^ m.size := Nat.lt_size_self m
  rw [Nat.testBit_to_div_mod]
  have hdiv : m / 2 ^ (m.size - 1) = 1 := by
    apply Nat.div_eq_of_lt_le (by simpa using hlow)
    have : 2 ^ m.size = 2 ^ (m.size - 1) * 2 := by
      rw [← Nat.pow_succ]
      congr 1
      omega
    omega
  rw [hdiv]
  decide

/-- The six smearing steps set every bit below the most significant
one: `smear m = 2 ^ size m - 1` for 64-bit inputs. -/
theorem smear_eq_pow_size_sub_one (m : Nat) (hm : m < 2 ^ 64) :
    smear m = 2 ^ m.size - 1 := by
  apply Nat.eq_of_testBit_eq
  intro j
  rw [Nat.testBit_two_pow_sub_one]
  by_cases hj : j < m.size
  · have hm0 : m ≠ 0 := by
      intro h
      subst h
      simp [Nat.size_zero] at hj
    have hsle : m.size ≤ 64 := Nat.size_le.mpr hm
    have : (smear m).testBit j = true := by
      rw [smear_window]
      exact ⟨m.size - 1 - j, by omega, by
        have : j + (m.size - 1 - j) = m.size - 1 := by omega
        rw [this]
        exact testBit_size_pred m hm0⟩
    rw [this]
    simp [hj]
  · have : (smear m).testBit j = false := by
      rw [← Bool.not_eq_true, smear_window]
      rintro ⟨d, hd, hbit⟩
      have : m < 2 ^ (j + d) :=
        lt_of_lt_of_le (Nat.lt_size_self m)
          (Nat.pow_le_pow_right (by omega) (by omega))
      rw [Nat.testBit_lt_two_pow this] at hbit
      exact Bool.false_ne_true hbit
    rw [this]
    simp [hj]

/-- On the real input range, `nextPowerOf2` is `2 ^ size (n - 1)`. -/
theorem nextPowerOf2_eq (n : Nat) (h1 : 1 ≤ n) (h2 : n ≤ 2 ^ 63) :
    nextPowerOf2 n = 2 ^ (n - 1).size := by
  unfold nextPowerOf2
  have hU : U64 = 2 ^ 64 := rfl
  have hn : n % U64 = n := Nat.mod_eq_of_lt (by rw [hU]; omega)
  have hdec : (n % U64 + (U64 - 1)) % U64 = n - 1 := by
    rw [hn, hU]
    have : n + (2 ^ 64 - 1) = (n - 1) + 1 * 2 ^ 64 := by omega
    rw [this, Nat.add_mul_mod_self_right]
    exact Nat.mod_eq_of_lt (by omega)
  rw [hdec, smear_eq_pow_size_sub_one (n - 1) (by omega)]
  have hsize : (n - 1).size ≤ 63 := Nat.size_le.mpr (by omega)
  have hpow : 2 ^ (n - 1).size ≤ 2 ^ 63 := Nat.pow_le_pow_right (by omega) hsize
  have hpos : 0 < 2 ^ (n - 1).size := Nat.pos_pow_of_pos _ (by omega)
  rw [Nat.sub_add_cancel hpos]
  exact Nat.mod_eq_of_lt (by rw [hU]; omega)

theorem size_two_pow_sub_one (k : Nat) : (2 ^ k - 1).size = k := by
  apply Nat.le_antisymm
  · exact Nat.size_le.mpr (by have : 0 < 2 ^ k := Nat.pos_pow_of_pos _ (by omega); omega)
  · rcases Nat.eq_zero_or_pos k with hk | hk
    · simp [hk]
    · have : k - 1 < (2 ^ k - 1).size := by
        apply Nat.lt_size.mpr
        have h1 : 2 ^ k = 2 ^ (k - 1) * 2 := by
          rw [← Nat.pow_succ]; congr 1; omega
        have h2 : 0 < 2 ^ (k - 1) := Nat.pos_pow_of_pos _ (by omega)
        omega
      omega

/-- The source's power-of-two test agrees with being a power of two on
the real input range. -/
theorem nextPowerOf2_fixed_iff (n : Nat) (h1 : 1 ≤ n) (h2 : n ≤ 2 ^ 63) :
    nextPowerOf2 n = n ↔ ∃ k, n = 2 ^ k := by
  rw [nextPowerOf2_eq n h1 h2]
  constructor
  · intro h
    exact ⟨(n - 1).size, h.symm⟩
  · rintro ⟨k, rfl⟩
    rw [size_two_pow_sub_one]

end Temper

namespace Temper

/-! ## C3 and C10: the decoder's validation chain -/

/-- The bucket capacity constant evaluates to 4. -/
theorem bucketSize_eq : bucketSize = 4 := rfl

/-- The bytes-per-bucket constant evaluates to 8. -/
theorem bytesPerBucket_eq : bytesPerBucket = 8 := rfl

/-- Shared helper: the success branch of `from` on present filter
bytes whose length passes all three checks. -/
theorem from_some_ok (fb : List Nat) (rb : Option (List Nat))
    (h4 : fb.length % 4 = 0) (h1 : 1 ≤ fb.length / 8)
    (hpow : ∃ k, fb.length / 8 = 2 ^ k) (hlen : fb.length < 2 ^ 63) :
    from_ { Filter := some fb, Rollout := rb } =
      Except.ok { cap := fb.length / 8,
                  count := countNonzero (bucketsOf fb (fb.length / 8)),
                  buckets := some (bucketsOf fb (fb.length / 8)),
                  bucketIndexMask := (bucketsOf fb (fb.length / 8)).length - 1,
                  rollouts := rolloutsFromResponse rb } := by
  have hsize : fb.length / 8 ≤ 2 ^ 63 := le_of_lt (lt_of_le_of_lt (Nat.div_le_self _ _) hlen)
  have hmod : fb.length / 8 % U64 = fb.length / 8 := by
    apply Nat.mod_eq_of_lt
    have : (2 : Nat) ^ 63 < 2 ^ 64 := by norm_num
    unfold U64
    omega
  have hfix : nextPowerOf2 (fb.length / 8) = fb.length / 8 :=
    (nextPowerOf2_fixed_iff _ h1 hsize).mpr hpow
  simp only [from_, bucketSize_eq, bytesPerBucket_eq]
  rw [if_neg (show ¬fb.length % 4 ≠ 0 by omega),
    if_neg (show ¬fb.length / 8 < 1 by omega), hmod,
    if_neg (show ¬nextPowerOf2 (fb.length / 8) ≠ fb.length / 8 from fun h => h hfix)]

/-- C3: for present filter bytes, the decoder validates in order:
length divisible by 4 (else the malformed-length error), bucket count
`len / 8` at least 1 (else the too-small error), bucket count a power
of two (else the not-power-of-two error); when all checks pass, the
bucket table has exactly `len / 8` buckets.  The length bound is Go's
slice-length range. -/
theorem from_filter_validation_order (fb : List Nat) (rb : Option (List Nat))
    (hlen : fb.length < 2 ^ 63) :
    (fb.length % 4 ≠ 0 →
      from_ { Filter := some fb, Rollout := rb } =
        Except.error DecodeError.malformedLength) ∧
    (fb.length % 4 = 0 → fb.length / 8 < 1 →
      from_ { Filter := some fb, Rollout := rb } =
        Except.error DecodeError.tooSmall) ∧
    (fb.length % 4 = 0 → 1 ≤ fb.length / 8 → (¬ ∃ k, fb.length / 8 = 2 ^ k) →
      from_ { Filter := some fb, Rollout := rb } =
        Except.error DecodeError.notPowerOfTwo) ∧
    (fb.length % 4 = 0 → 1 ≤ fb.length / 8 → (∃ k, fb.length / 8 = 2 ^ k) →
      ∃ flt, from_ { Filter := some fb, Rollout := rb } = Except.ok flt ∧
        flt.buckets = some (bucketsOf fb (fb.length / 8)) ∧
        (bucketsOf fb (fb.length / 8)).length = fb.length / 8) := by
  refine ⟨?_, ?_, ?_, ?_⟩
  · intro h
    simp only [from_, bucketSize_eq]
    rw [if_pos h]
  · intro h4 h0
    simp only [from_, bucketSize_eq, bytesPerBucket_eq]
    rw [if_neg (show ¬fb.length % 4 ≠ 0 by omega), if_pos h0]
  · intro h4 h1 hnp
    have hsize : fb.length / 8 ≤ 2 ^ 63 :=
      le_of_lt (lt_of_le_of_lt (Nat.div_le_self _ _) hlen)
    have hmod : fb.length / 8 % U64 = fb.length / 8 := by
      apply Nat.mod_eq_of_lt
      have : (2 : Nat) ^ 63 < 2 ^ 64 := by norm_num
      unfold U64
      omega
    have hfix : nextPowerOf2 (fb.length / 8) ≠ fb.length / 8 := by
      intro h
      exact hnp ((nextPowerOf2_fixed_iff _ h1 hsize).mp h)
    simp only [from_, bucketSize_eq, bytesPerBucket_eq]
    rw [if_neg (show ¬fb.length % 4 ≠ 0 by omega),
      if_neg (show ¬fb.length / 8 < 1 by omega), hmod, if_pos hfix]
  · intro h4 h1 hpow
    refine ⟨_, from_some_ok fb rb h4 h1 hpow hlen, rfl, ?_⟩
    simp [bucketsOf]

/-- C3 witness: eight zero bytes (one all-empty bucket) take the
success branch. -/
theorem from_filter_validation_order_witness :
    ([0, 0, 0, 0, 0, 0, 0, 0] : List Nat).length < 2 ^ 63 ∧
      ∃ flt, from_ { Filter := some [0, 0, 0, 0, 0, 0, 0, 0], Rollout := none } =
          Except.ok flt ∧
        flt.buckets =
          some (bucketsOf [0, 0, 0, 0, 0, 0, 0, 0]
            (([0, 0, 0, 0, 0, 0, 0, 0] : List Nat).length / 8)) ∧
        (bucketsOf [0, 0, 0, 0, 0, 0, 0, 0]
          (([0, 0, 0, 0, 0, 0, 0, 0] : List Nat).length / 8)).length =
          ([0, 0, 0, 0, 0, 0, 0, 0] : List Nat).length / 8 :=
  ⟨by decide,
   (from_filter_validation_order [0, 0, 0, 0, 0, 0, 0, 0] none (by decide)).2.2.2
     (by decide) (by decide) ⟨0, by decide⟩⟩

/-- C10: present filter bytes whose length is `8 * k + 4` (divisible
by 4 but not by 8) with `k ≥ 1` a power of two are accepted, not
rejected: the decoder builds exactly `k` buckets and silently ignores
the 4 trailing bytes (the bucket table equals the one built from the
truncation to `8 * k` bytes). -/
theorem from_accepts_four_trailing_bytes (fb : List Nat)
    (rb : Option (List Nat)) (k : Nat)
    (hlen : fb.length = 8 * k + 4) (hk : 1 ≤ k) (hpow : ∃ j, k = 2 ^ j)
    (hbound : fb.length < 2 ^ 63) :
    ∃ flt, from_ { Filter := some fb, Rollout := rb } = Except.ok flt ∧
      flt.buckets = some (bucketsOf fb k) ∧
      (bucketsOf fb k).length = k ∧
      bucketsOf fb k = bucketsOf (fb.take (8 * k)) k := by
  have hsize : fb.length / 8 = k := by omega
  have h4 : fb.length % 4 = 0 := by omega
  have h1 : 1 ≤ fb.length / 8 := by omega
  have hpow8 : ∃ j, fb.length / 8 = 2 ^ j := by rw [hsize]; exact hpow
  have hok := from_some_ok fb rb h4 h1 hpow8 hbound
  rw [hsize] at hok
  refine ⟨_, hok, rfl, by simp [bucketsOf], ?_⟩
  exact (bucketsOf_take fb k (8 * k) (le_refl _)).symm

/-- C10 witness: twelve zero bytes, one bucket, four ignored trailing
bytes. -/
theorem from_accepts_four_trailing_bytes_witness :
    (([0, 0, 0, 0, 0, 0, 0, 0, 0, 0, 0, 0] : List Nat).length = 8 * 1 + 4) ∧
      ∃ flt,
        from_ { Filter := some [0, 0, 0, 0, 0, 0, 0, 0, 0, 0, 0, 0], Rollout := none } =
          Except.ok flt ∧
        flt.buckets = some (bucketsOf [0, 0, 0, 0, 0, 0, 0, 0, 0, 0, 0, 0] 1) ∧
        (bucketsOf [0, 0, 0, 0, 0, 0, 0, 0, 0, 0, 0, 0] 1).length = 1 ∧
        bucketsOf [0, 0, 0, 0, 0, 0, 0, 0, 0, 0, 0, 0] 1 =
          bucketsOf (([0, 0, 0, 0, 0, 0, 0, 0, 0, 0, 0, 0] : List Nat).take (8 * 1)) 1 :=
  ⟨by decide,
   from_accepts_four_trailing_bytes
     [0, 0, 0, 0, 0, 0, 0, 0, 0, 0, 0, 0] none 1
     (by decide) (by decide) ⟨0, by decide⟩ (by decide)⟩

end Temper

namespace Temper

/-! ## C7: rollout monotonicity -/

/-- C7: the bucket value `hash(key) % 100` is a pure function of the
key (call-to-call stability is definitional in this embedding), and
enablement is monotonic in the configured percentage: if the rollout
table of `f` stores percentage `P` for the key's feature prefix and
the rollout table of `g` stores `Q ≥ P`, then every key enabled under
`f`'s table is enabled under `g`'s. -/
theorem lookupRollout_monotone (f g : filter) (data : List Nat) (P Q : Nat)
    (hP : mapGet f.rollouts ((hash (featureKey data) >>> 8) <<< 8) = P)
    (hQ : mapGet g.rollouts ((hash (featureKey data) >>> 8) <<< 8) = Q)
    (hPQ : P ≤ Q) (ht : f.lookupRollout data = true) :
    g.lookupRollout data = true := by
  simp only [filter.lookupRollout, hP] at ht
  simp only [filter.lookupRollout, hQ]
  have hb : hash data % 100 % 256 < 100 := by
    rw [mod100_mod256]
    exact Nat.mod_lt _ (by norm_num)
  by_cases hq : Q = 100
  · simp [hq]
  · simp only [beq_iff_eq, if_neg hq, decide_eq_true_eq]
    by_cases hp : P = 100
    · omega
    · simp only [beq_iff_eq, if_neg hp, decide_eq_true_eq] at ht
      omega

/-- C7 witness: the empty key (bucket value 37) with configured
percentages 40 and 41. -/
theorem lookupRollout_monotone_witness :
    mapGet
      ({ cap := 0, count := 0, buckets := none, bucketIndexMask := 0,
         rollouts := [((hash ([] : List Nat) >>> 8) <<< 8, 40)] } : filter).rollouts
      ((hash (featureKey ([] : List Nat)) >>> 8) <<< 8) = 40 ∧
    mapGet
      ({ cap := 0, count := 0, buckets := none, bucketIndexMask := 0,
         rollouts := [((hash ([] : List Nat) >>> 8) <<< 8, 41)] } : filter).rollouts
      ((hash (featureKey ([] : List Nat)) >>> 8) <<< 8) = 41 ∧
    (40 : Nat) ≤ 41 ∧
    ({ cap := 0, count := 0, buckets := none, bucketIndexMask := 0,
       rollouts := [((hash ([] : List Nat) >>> 8) <<< 8, 40)] } : filter).lookupRollout [] =
      true ∧
    ({ cap := 0, count := 0, buckets := none, bucketIndexMask := 0,
       rollouts := [((hash ([] : List Nat) >>> 8) <<< 8, 41)] } : filter).lookupRollout [] =
      true :=
  ⟨by decide, by decide, by decide, by decide,
   lookupRollout_monotone
     { cap := 0, count := 0, buckets := none, bucketIndexMask := 0,
       rollouts := [((hash ([] : List Nat) >>> 8) <<< 8, 40)] }
     { cap := 0, count := 0, buckets := none, bucketIndexMask := 0,
       rollouts := [((hash ([] : List Nat) >>> 8) <<< 8, 41)] }
     [] 40 41 (by decide) (by decide) (by decide) (by decide)⟩

end Temper
